import Mathlib

/-!
Verification of the budgeted directory-size exporter
(`prometheus_dirsize_exporter/exporter.py`).

The development is a shallow embedding of the Python source:

* `ThrottleState` / `stepThrottle` / `do_iops_action` embed
  `BudgetedDirInfoWalker.do_iops_action` under a modeled monotonic clock
  (nanoseconds as `Nat`).  The caller issues operations back-to-back, so the
  clock only advances during the deliberate `time.sleep` inside the throttle.
* `FSEntry` models a filesystem subtree as seen by one scan, including the
  transient races the code is designed to tolerate: a `Van` tag on file-like
  entries records whether the entry vanishes between being listed and being
  classified (`goneAtClassify`) or between being classified and being
  queried with `os.stat` (`goneAtStat`); a `DirStatus` tag on directories
  records whether the directory's own `os.stat` or `os.listdir` fails, and
  with which OS error.  `symlinkDir` models a symbolic link whose target is
  an existing directory (for such a path `os.path.isfile` is `false` while
  both `os.path.islink` and `os.path.isdir` are `true`, since the latter two
  resolve the link).
* `get_dir_info`, `find_urb_directory`, `get_subdirs_info` embed the
  correspondingly named methods of `BudgetedDirInfoWalker`; `processChild`
  is the loop body of `get_subdirs_info` factored out.  Fallible calls are
  embedded in `Except FSError`.
* `cycleStales` / `removeStaleDir` embed the stale-metric reconciliation of
  `main` (the gauge store itself is external to `src` and is modelled from
  the spec).
-/

/-! ## The IOPS throttle (`do_iops_action`) -/

/-- Embeds the constant `ONE_S_IN_NS = 1_000_000_000` of the source. -/
def ONE_S_IN_NS : Nat := 1000000000

/-- State of a `BudgetedDirInfoWalker` as far as the throttle is concerned,
together with the modeled monotonic clock `now` (in nanoseconds).  Fields
`iops_budget`, `last_reset` and `calls` embed `self.iops_budget`,
`self._last_iops_reset_time` and `self._io_calls_since_last_reset`. -/
structure ThrottleState where
  iops_budget : Nat
  last_reset : Nat
  calls : Nat
  now : Nat
deriving DecidableEq

/-- Fresh walker state at modeled time `t0`: the constructor sets
`_last_iops_reset_time = time.monotonic_ns()` and
`_io_calls_since_last_reset = 0`. -/
def initThrottle (budget t0 : Nat) : ThrottleState :=
  ⟨budget, t0, 0, t0⟩

/-- State transition of one back-to-back call to `do_iops_action`.  The
caller issues operations with no delay in between, so every
`time.monotonic_ns()` read returns `s.now`, and only `time.sleep` advances
the modeled clock.  The three blocks mirror the source:

1. if more than one second passed since the last reset, reset the counter
   and the budget clock;
2. if over budget, sleep for `1s - elapsed + 1ns` and reset both;
3. perform the operation and increment the counter. -/
def stepThrottle (s : ThrottleState) : ThrottleState :=
  let s1 := if s.now - s.last_reset > ONE_S_IN_NS then
      { s with calls := 0, last_reset := s.now }
    else s
  let s2 := if s1.calls > s1.iops_budget then
      let wait := ONE_S_IN_NS - (s1.now - s1.last_reset) + 1
      { s1 with now := s1.now + wait, calls := 0, last_reset := s1.now + wait }
    else s1
  { s2 with calls := s2.calls + 1 }

/-- Embeds `do_iops_action(func, *args, **kwargs)`: the wrapped callable is
executed exactly once against the external world `w` and its result is
returned unchanged, after the throttle state update (the callable runs at
the modeled instant `(stepThrottle s).now`). -/
def do_iops_action {W R : Type} (s : ThrottleState) (f : W → W × R) (w : W) :
    ThrottleState × (W × R) :=
  (stepThrottle s, f w)

/-- Walker state after `k` back-to-back charged operations from a fresh
walker created at time `t0`. -/
def stateAfter (budget t0 : Nat) : Nat → ThrottleState
  | 0 => initThrottle budget t0
  | k + 1 => stepThrottle (stateAfter budget t0 k)

/-- Modeled completion times of `n` back-to-back charged operations issued
through `do_iops_action` on a fresh walker: operation `k` (0-based)
completes at `(stateAfter budget t0 (k+1)).now`. -/
def chargeTimes (budget t0 : Nat) (n : Nat) : List Nat :=
  (List.range n).map (fun k => (stateAfter budget t0 (k + 1)).now)

/-- Closed form for the completion time of the `k`-th (0-based) back-to-back
charged operation: bursts of `budget + 1` operations, consecutive bursts
separated by `ONE_S_IN_NS + 1` nanoseconds. -/
def chargeTime (budget t0 k : Nat) : Nat :=
  t0 + (k / (budget + 1)) * (ONE_S_IN_NS + 1)

theorem succ_divmod_step (b k : Nat) (h : k % (b + 1) ≠ b) :
    (k + 1) / (b + 1) = k / (b + 1) ∧ (k + 1) % (b + 1) = k % (b + 1) + 1 := by
  have hpos : 0 < b + 1 := Nat.succ_pos b
  have hmod : k % (b + 1) < b + 1 := Nat.mod_lt _ hpos
  have hr : k % (b + 1) + 1 < b + 1 := by omega
  have hk : (b + 1) * (k / (b + 1)) + k % (b + 1) = k := Nat.div_add_mod k (b + 1)
  have hrepr : k + 1 = (k % (b + 1) + 1) + (b + 1) * (k / (b + 1)) := by omega
  constructor
  · rw [hrepr, Nat.add_mul_div_left _ _ hpos, Nat.div_eq_of_lt hr, Nat.zero_add]
  · rw [hrepr, Nat.add_mul_mod_self_left, Nat.mod_eq_of_lt hr]

theorem succ_divmod_wrap (b k : Nat) (h : k % (b + 1) = b) :
    (k + 1) / (b + 1) = k / (b + 1) + 1 ∧ (k + 1) % (b + 1) = 0 := by
  have hpos : 0 < b + 1 := Nat.succ_pos b
  have hk : (b + 1) * (k / (b + 1)) + k % (b + 1) = k := Nat.div_add_mod k (b + 1)
  have hrepr : k + 1 = (b + 1) * (k / (b + 1) + 1) := by
    rw [Nat.mul_add, Nat.mul_one]
    omega
  constructor
  · rw [hrepr, Nat.mul_div_cancel_left _ hpos]
  · rw [hrepr, Nat.mul_mod_right]

/-- Closed form of the throttle state after `k + 1` back-to-back charged
operations: the clock and reset time sit at the start of the current burst,
and the counter holds the number of operations completed in that burst. -/
theorem stateAfter_closed (b t0 : Nat) :
    ∀ k, stateAfter b t0 (k + 1) =
      ⟨b, chargeTime b t0 k, k % (b + 1) + 1, chargeTime b t0 k⟩ := by
  intro k
  induction k with
  | zero =>
    simp [stateAfter, initThrottle, stepThrottle, ONE_S_IN_NS, chargeTime]
  | succ k ih =>
    show stepThrottle (stateAfter b t0 (k + 1)) = _
    rw [ih]
    by_cases h : k % (b + 1) = b
    · obtain ⟨hdiv, hmod⟩ := succ_divmod_wrap b k h
      simp only [stepThrottle, chargeTime, hdiv, hmod, h]
      norm_num [ONE_S_IN_NS]
      ring
    · obtain ⟨hdiv, hmod⟩ := succ_divmod_step b k h
      have hlt : k % (b + 1) < b + 1 := Nat.mod_lt _ (Nat.succ_pos b)
      have hnb : ¬ (k % (b + 1) + 1 > b) := by omega
      simp only [stepThrottle, chargeTime, hdiv, hmod]
      norm_num [ONE_S_IN_NS, hnb]

/-- The completion-time trace of a back-to-back run follows the closed
form `chargeTime`. -/
theorem chargeTimes_eq (b t0 n : Nat) :
    chargeTimes b t0 n = (List.range n).map (chargeTime b t0) := by
  unfold chargeTimes
  apply List.map_congr_left
  intro k _
  rw [stateAfter_closed]

/-- Any two charged operations completing within one rolling one-second
window belong to the same burst. -/
theorem window_same_burst (b t0 t i j : Nat)
    (hi1 : t ≤ chargeTime b t0 i) (hi2 : chargeTime b t0 i ≤ t + ONE_S_IN_NS)
    (hj1 : t ≤ chargeTime b t0 j) (hj2 : chargeTime b t0 j ≤ t + ONE_S_IN_NS) :
    i / (b + 1) = j / (b + 1) := by
  by_contra hne
  unfold chargeTime at hi1 hi2 hj1 hj2
  rcases Nat.lt_or_ge (i / (b + 1)) (j / (b + 1)) with hlt | hge
  · have h1 : i / (b + 1) + 1 ≤ j / (b + 1) := hlt
    have h2 : (i / (b + 1) + 1) * (ONE_S_IN_NS + 1) ≤ (j / (b + 1)) * (ONE_S_IN_NS + 1) :=
      Nat.mul_le_mul_right _ h1
    rw [Nat.add_mul, Nat.one_mul] at h2
    omega
  · have hlt : j / (b + 1) < i / (b + 1) := by omega
    have h1 : j / (b + 1) + 1 ≤ i / (b + 1) := hlt
    have h2 : (j / (b + 1) + 1) * (ONE_S_IN_NS + 1) ≤ (i / (b + 1)) * (ONE_S_IN_NS + 1) :=
      Nat.mul_le_mul_right _ h1
    rw [Nat.add_mul, Nat.one_mul] at h2
    omega

/-- No rolling one-second window contains more than `budget + 1` charged
operations of a back-to-back run. -/
theorem window_bound (b t0 n t : Nat) :
    ((Finset.range n).filter
      (fun i => t ≤ chargeTime b t0 i ∧ chargeTime b t0 i ≤ t + ONE_S_IN_NS)).card
      ≤ b + 1 := by
  set S := (Finset.range n).filter
      (fun i => t ≤ chargeTime b t0 i ∧ chargeTime b t0 i ≤ t + ONE_S_IN_NS) with hS
  rcases Finset.eq_empty_or_nonempty S with he | ⟨i0, hi0⟩
  · rw [he]
    simp
  · have hi0' := Finset.mem_filter.mp hi0
    set q := i0 / (b + 1) with hq
    have hsub : S ⊆ Finset.Ico (q * (b + 1)) (q * (b + 1) + (b + 1)) := by
      intro j hj
      have hj' := Finset.mem_filter.mp hj
      have hsame : j / (b + 1) = q :=
        window_same_burst b t0 t j i0 hj'.2.1 hj'.2.2 hi0'.2.1 hi0'.2.2
      have hdm : (b + 1) * (j / (b + 1)) + j % (b + 1) = j := Nat.div_add_mod j (b + 1)
      have hmod : j % (b + 1) < b + 1 := Nat.mod_lt _ (Nat.succ_pos b)
      rw [hsame] at hdm
      rw [Finset.mem_Ico]
      have hcomm : q * (b + 1) = (b + 1) * q := Nat.mul_comm _ _
      omega
    calc S.card ≤ (Finset.Ico (q * (b + 1)) (q * (b + 1) + (b + 1))).card :=
          Finset.card_le_card hsub
      _ = b + 1 := by rw [Nat.card_Ico]; omega

/-- C1: for every sequence of operations issued back-to-back through
`do_iops_action` with budget `B`, no rolling one-second window of the
modeled clock contains more than `B + 1` completed charged operations
(the trace of completion times is `chargeTimes`, whose `k`-th element is
`chargeTime B t0 k`, and the window `[t, t + 1s]` holds at most `B + 1` of
them), and each charged operation's callable is executed exactly once
against the external world and its result is returned unchanged. -/
theorem C1_budget_window_and_exec_once (B t0 n t : Nat) :
    chargeTimes B t0 n = (List.range n).map (chargeTime B t0) ∧
    ((Finset.range n).filter
      (fun i => t ≤ chargeTime B t0 i ∧ chargeTime B t0 i ≤ t + ONE_S_IN_NS)).card
      ≤ B + 1 ∧
    ∀ (W R : Type) (s : ThrottleState) (f : W → W × R) (w : W),
      do_iops_action s f w = (stepThrottle s, f w) :=
  ⟨chargeTimes_eq B t0 n, window_bound B t0 n t, fun _ _ _ _ _ => rfl⟩

/-! ## Filesystem model -/

/-- Race tag for file-like entries (regular files and symbolic links): the
entry may vanish between `os.listdir` and the `os.path.isfile`/`islink`
classification (`goneAtClassify`, the classification then returns false),
or between classification and the charged `os.stat(..., follow_symlinks =
False)` (`goneAtStat`, the stat then raises `FileNotFoundError`). -/
inductive Van where
  | alive
  | goneAtClassify
  | goneAtStat
deriving DecidableEq

/-- OS-level errors carried by `OSError` (every one of these is an
`OSError` in Python; `PermissionError` is the subclass with errno 13). -/
inductive FSError where
  | fileNotFound
  | staleHandle
  | permissionDenied
  | other (code : Nat)
deriving DecidableEq

/-- Numeric `errno` of an `FSError` (`ENOENT = 2`, `ESTALE = 116`,
`EACCES = 13`). -/
def FSError.errno : FSError → Nat
  | .fileNotFound => 2
  | .staleHandle => 116
  | .permissionDenied => 13
  | .other c => c

/-- Race/error tag for a directory entry: it may vanish before the
`os.path.isdir` classification (`goneAtClassify`), between classification
and its own initial `os.stat` (`goneBeforeStat`, the stat raises
`FileNotFoundError`), or its `os.listdir` may raise the given OS error
(`listRaises`; `listRaises .fileNotFound` models the directory vanishing
between its initial stat and the listing). -/
inductive DirStatus where
  | alive
  | goneAtClassify
  | goneBeforeStat
  | listRaises (e : FSError)
deriving DecidableEq

/-- One filesystem subtree as observed by a single scan.  `file` carries the
size and mtime returned by `lstat`; `symlink` is a symbolic link whose
target is not a directory (a regular file or dangling), with its own link
size and mtime; `symlinkDir` is a symbolic link to an existing directory,
carrying the link's own `lstat` metadata and the target directory's subtree
(`os.path.isdir` resolves links, so such an entry classifies as a directory
as well as a link); `dir` carries the directory's own stat metadata and its
children in listing order. -/
inductive FSEntry where
  | file (name : String) (size : Nat) (mtime : Int) (van : Van)
  | symlink (name : String) (size : Nat) (mtime : Int) (van : Van)
  | symlinkDir (name : String) (size : Nat) (mtime : Int) (target : FSEntry)
  | dir (name : String) (size : Nat) (mtime : Int) (status : DirStatus) (children : List FSEntry)

/-- Basename of the path of an entry (`os.path.basename`). -/
def FSEntry.name : FSEntry → String
  | .file n _ _ _ => n
  | .symlink n _ _ _ => n
  | .symlinkDir n _ _ _ => n
  | .dir n _ _ _ _ => n

/-- Own (`lstat`) size of an entry. -/
def entrySize : FSEntry → Nat
  | .file _ s _ _ => s
  | .symlink _ s _ _ => s
  | .symlinkDir _ s _ _ => s
  | .dir _ s _ _ _ => s

/-- Own (`lstat`) modification time of an entry. -/
def entryMtime : FSEntry → Int
  | .file _ _ m _ => m
  | .symlink _ _ m _ => m
  | .symlinkDir _ _ m _ => m
  | .dir _ _ m _ _ => m

/-- Embeds the classification `os.path.isfile(c) or os.path.islink(c)` at
the moment the `files` list is built: true for present files and for every
present symbolic link (`islink` is true even for a link to a directory);
false for plain directories and for entries that vanished before the
classification. -/
def isFileLike : FSEntry → Bool
  | .file _ _ _ .goneAtClassify => false
  | .file _ _ _ _ => true
  | .symlink _ _ _ .goneAtClassify => false
  | .symlink _ _ _ _ => true
  | .symlinkDir _ _ _ _ => true
  | .dir _ _ _ _ _ => false

/-- Embeds the classification `os.path.isdir(c)` at the moment the `dirs`
list is built: true for present directories and for symbolic links to
directories (`isdir` resolves links); false for files, for non-directory
links, and for directories that vanished before the classification. -/
def isDirLike : FSEntry → Bool
  | .dir _ _ _ .goneAtClassify _ => false
  | .dir _ _ _ _ _ => true
  | .symlinkDir _ _ _ _ => true
  | _ => false

/-- Embeds the charged `os.stat(f, follow_symlinks=False)` of the files
loop: `none` models `FileNotFoundError` (the entry vanished since being
classified), otherwise the entry's own link/file size and mtime. -/
def statNoFollow : FSEntry → Option (Nat × Int)
  | .file _ s m .alive => some (s, m)
  | .file _ _ _ _ => none
  | .symlink _ s m .alive => some (s, m)
  | .symlink _ _ _ _ => none
  | .symlinkDir _ s m _ => some (s, m)
  | .dir _ s m _ _ => some (s, m)

/-- Embeds the dataclass `DirInfo` of the source.  `processing_time` is
wall-clock time in the source and is modeled as the constant 0. -/
structure DirInfo where
  path : String
  size : Nat
  latest_mtime : Int
  oldest_mtime : Int
  entries_count : Nat
  processing_time : Nat
deriving DecidableEq

/-- Running aggregate of `get_dir_info`: the local variables `total_size`,
`latest_mtime`, `oldest_mtime`, `entries_count`. -/
structure Agg where
  size : Nat
  latest : Int
  oldest : Int
  count : Nat
deriving DecidableEq

/-- One iteration of the files loop of `get_dir_info`: on
`FileNotFoundError` the child is skipped (`continue`), otherwise its size
is added and the mtime bounds are updated. -/
def foldFile (a : Agg) (f : FSEntry) : Agg :=
  match statNoFollow f with
  | none => a
  | some (s, m) => ⟨a.size + s, max a.latest m, min a.oldest m, a.count⟩

/-- One iteration of the dirs loop of `get_dir_info`, folding a recursive
`DirInfo` into the aggregate. -/
def foldDirInfo (a : Agg) (di : DirInfo) : Agg :=
  ⟨a.size + di.size, max a.latest di.latest_mtime, min a.oldest di.oldest_mtime,
    a.count + di.entries_count⟩

theorem sizeOf_filter_le (p : FSEntry → Bool) :
    ∀ l : List FSEntry, sizeOf (l.filter p) ≤ sizeOf l := by
  intro l
  induction l with
  | nil => simp [List.filter]
  | cons a t ih =>
    by_cases h : p a <;> simp [List.filter, h] <;> omega

mutual

/-- Embeds `BudgetedDirInfoWalker.get_dir_info`.  The initial `os.stat` of
the path returns `none` on `FileNotFoundError`; the children are listed
(`os.listdir` may raise, which propagates) and classified into `files` and
`dirs`; `entries_count` starts at `len(files) + 1`; the files loop folds
each successfully statted file-like child; the dirs loop recurses, skipping
children that vanished, and errors of the recursive calls propagate.  Called
on a symbolic link to a directory the initial `os.stat` and `os.listdir`
resolve the link, so the target subtree is measured under the link's
basename.  Called on a non-directory, `os.listdir` raises
`NotADirectoryError` (`errno 20`), which propagates. -/
def get_dir_info : FSEntry → Except FSError (Option DirInfo)
  | .file _ _ _ _ => .error (.other 20)
  | .symlink _ _ _ _ => .error (.other 20)
  | .symlinkDir name _ _ target =>
    match get_dir_info target with
    | .error e => .error e
    | .ok none => .ok none
    | .ok (some di) =>
      .ok (some ⟨name, di.size, di.latest_mtime, di.oldest_mtime, di.entries_count,
        di.processing_time⟩)
  | .dir _ _ _ .goneAtClassify _ => .ok none
  | .dir _ _ _ .goneBeforeStat _ => .ok none
  | .dir _ _ _ (.listRaises e) _ => .error e
  | .dir name size mtime .alive children =>
    let files := children.filter isFileLike
    let dirs := children.filter isDirLike
    let a0 : Agg := ⟨size, mtime, mtime, files.length + 1⟩
    let a1 := files.foldl foldFile a0
    match walkDirs dirs a1 with
    | .error e => .error e
    | .ok a => .ok (some ⟨name, a.size, a.latest, a.oldest, a.count, 0⟩)
termination_by e => sizeOf e
decreasing_by
  all_goals simp_wf
  all_goals (have h9 := sizeOf_filter_le isDirLike children; omega)

/-- The dirs loop of `get_dir_info`: recursively measure each directory
child, skip the ones that vanished (`None`), propagate errors. -/
def walkDirs : List FSEntry → Agg → Except FSError Agg
  | [], a => .ok a
  | d :: ds, a =>
    match get_dir_info d with
    | .error e => .error e
    | .ok none => walkDirs ds a
    | .ok (some di) => walkDirs ds (foldDirInfo a di)
termination_by l _ => sizeOf l
decreasing_by
  all_goals simp_wf <;> omega

end

/-! ## Volume redirection and the top-level scan (`get_subdirs_info`) -/

/-- Substring test on character lists: `pat` occurs somewhere in `s`
(Python's `pat in s`). -/
def listContains (s pat : List Char) : Bool :=
  if pat.isPrefixOf s then true
  else
    match s with
    | [] => false
    | _ :: t => listContains t pat

/-- Embeds the volume-marker test of `get_subdirs_info`:
`"tlon_" in dir_name`. -/
def containsMarker (s : String) : Bool :=
  listContains s.data "tlon_".data

/-- Embeds the payload-marker probe of `find_urb_directory`:
`os.path.isdir(os.path.join(d, ".urb"))`, i.e. whether `d` currently has a
directory-like child named `.urb` (on a vanished directory the probe is
false; `isdir` resolves symbolic links, so a link to a directory also
counts, and the probe on a symlink-to-directory path resolves the link). -/
def hasUrbChild : FSEntry → Bool
  | .dir _ _ _ .goneAtClassify _ => false
  | .dir _ _ _ .goneBeforeStat _ => false
  | .dir _ _ _ _ cs => cs.any (fun c => c.name == ".urb" && isDirLike c)
  | .symlinkDir _ _ _ t => hasUrbChild t
  | _ => false

/-- Embeds `BudgetedDirInfoWalker.find_urb_directory`: list the children of
`base_path`, keep the directory-like ones, and return the first with a
`.urb` directory child.  Any `OSError` (including the `FileNotFoundError`
of a vanished directory and `NotADirectoryError` on a non-directory) or
`PermissionError` is caught and turned into `None`. -/
def find_urb_directory : FSEntry → Option FSEntry
  | .dir _ _ _ .alive cs => (cs.filter isDirLike).find? hasUrbChild
  | .symlinkDir _ _ _ t => find_urb_directory t
  | _ => none

/-- Consumer-visible outcome of the generator `get_subdirs_info`:
the pairs yielded before the generator finished, and the exception it
raised, if any (`none` both when the loop completed and when a stale-handle
error silently ended the generator early). -/
structure SubdirsResult where
  yielded : List (String × DirInfo)
  err : Option FSError
deriving DecidableEq

/-- Loop body of `get_subdirs_info` for one directory-like child `c`:
if the child's basename contains the volume marker, search for the payload
directory and measure it under the original basename when found, falling
back to measuring `c` itself when not; otherwise measure `c` directly.
A `None` from `get_dir_info` yields nothing; its errors propagate. -/
def processChild (c : FSEntry) : Except FSError (Option (String × DirInfo)) :=
  let dir_name := c.name
  if containsMarker dir_name then
    match find_urb_directory c with
    | some urb_dir =>
      match get_dir_info urb_dir with
      | .error e => .error e
      | .ok none => .ok none
      | .ok (some di) => .ok (some (dir_name, di))
    | none =>
      match get_dir_info c with
      | .error e => .error e
      | .ok none => .ok none
      | .ok (some di) => .ok (some (dir_name, di))
  else
    match get_dir_info c with
    | .error e => .error e
    | .ok none => .ok none
    | .ok (some di) => .ok (some (dir_name, di))

/-- The `for c in dirs` loop of `get_subdirs_info`, together with the
surrounding `try`/`except`: an `OSError` with errno 116 ends the generator
silently (`return`), any other error — including a `PermissionError`, which
in Python is an `OSError` and is therefore caught by the first, errno-116
handler and re-raised, making the second handler dead code — propagates.
Either way the remaining children are not processed. -/
def goChildren : List FSEntry → SubdirsResult
  | [] => ⟨[], none⟩
  | c :: cs =>
    match processChild c with
    | .error e => if e.errno == 116 then ⟨[], none⟩ else ⟨[], some e⟩
    | .ok none => goChildren cs
    | .ok (some p) =>
      let r := goChildren cs
      ⟨p :: r.yielded, r.err⟩

/-- Embeds `BudgetedDirInfoWalker.get_subdirs_info`: list the children of
`dir_path` (a failing `os.listdir` is routed through the same
`except OSError` handler), keep the directory-like ones, and run the loop.
On a non-directory `os.listdir` raises `NotADirectoryError` (errno 20),
which propagates; on a symbolic link to a directory the listing resolves
the link. -/
def get_subdirs_info : FSEntry → SubdirsResult
  | .dir _ _ _ .alive children => goChildren (children.filter isDirLike)
  | .dir _ _ _ (.listRaises e) _ =>
    if e.errno == 116 then ⟨[], none⟩ else ⟨[], some e⟩
  | .dir _ _ _ _ _ => ⟨[], some .fileNotFound⟩
  | .symlinkDir _ _ _ t => get_subdirs_info t
  | _ => ⟨[], some (.other 20)⟩

/-! ## Error handling of `get_dir_info` (C10, C5) -/

/-- C10: `get_dir_info` returns absent (`ok none`) exactly when the initial
`os.stat` of the path itself raises `FileNotFoundError` (the directory was
gone before — or already at — the classification step); if the directory
vanishes after that initial query and `os.listdir` then raises
`FileNotFoundError`, that error propagates out of `get_dir_info` instead of
yielding absent. -/
theorem C10_absent_only_initial_stat (n : String) (s : Nat) (m : Int)
    (cs : List FSEntry) :
    (∀ st : DirStatus,
      (get_dir_info (.dir n s m st cs) = .ok none ↔
        st = .goneBeforeStat ∨ st = .goneAtClassify)) ∧
    get_dir_info (.dir n s m (.listRaises .fileNotFound) cs) = .error .fileNotFound := by
  constructor
  · intro st
    cases st with
    | alive =>
      simp only [get_dir_info]
      cases hw : walkDirs (cs.filter isDirLike)
          ((cs.filter isFileLike).foldl foldFile
            ⟨s, m, m, (cs.filter isFileLike).length + 1⟩) with
      | error e => simp
      | ok a => simp
    | goneAtClassify => simp [get_dir_info]
    | goneBeforeStat => simp [get_dir_info]
    | listRaises e => simp [get_dir_info]
  · simp [get_dir_info]

/-! ## C4: error recovery in the top-level scan -/

/-- C4 (code behaviour at the failing input): with top-level subdirectories
`a` (healthy), `b` (listing fails), `c` (healthy), a `PermissionError`
(errno 13) raised while measuring `b` is caught by the first
`except OSError` handler (in Python `PermissionError` is a subclass of
`OSError`, so the dedicated errno-13 handler below it is unreachable),
fails its errno-116 test and propagates, and a stale-handle error
(errno 116) silently ends the generator; in both cases subdirectory `c` is
not measured and yields nothing, contrary to the claim that only the
affected subdirectory is skipped and that permission errors are recovered
locally. -/
theorem C4_scan_abort_behaviour :
    get_subdirs_info (.dir "p" 0 0 .alive
      [.dir "a" 1 2 .alive [],
       .dir "b" 0 0 (.listRaises .permissionDenied) [],
       .dir "c" 3 4 .alive []]) =
      ⟨[("a", ⟨"a", 1, 2, 2, 1, 0⟩)], some .permissionDenied⟩ ∧
    get_subdirs_info (.dir "p" 0 0 .alive
      [.dir "a" 1 2 .alive [],
       .dir "b" 0 0 (.listRaises .staleHandle) [],
       .dir "c" 3 4 .alive []]) =
      ⟨[("a", ⟨"a", 1, 2, 2, 1, 0⟩)], none⟩ := by
  constructor <;>
    simp [get_subdirs_info, goChildren, processChild, containsMarker, listContains,
      List.isPrefixOf, find_urb_directory, hasUrbChild, FSEntry.name, FSError.errno,
      get_dir_info, walkDirs, foldFile, foldDirInfo, statNoFollow, isFileLike, isDirLike,
      List.filter, List.foldl]

/-! ## C6: symbolic links during `get_dir_info` -/

/-- C6 (code behaviour at the failing input): a symbolic link `l` (own link
size 1, mtime 5) to a directory `t` (size 2, mtime 20) containing a 50-byte
file classifies as a file (`islink`) and as a directory (`isdir` resolves
links), so the code both counts the link's own metadata and recursively
traverses the target: the total is `7 + 1 + 2 + 50 = 60` bytes and 4
entries, with the target's mtimes folded in — not the `7 + 1 = 8` bytes
and 2 entries the claim requires when a link's target is never followed.
This contradicts the source's own comment that symlinks are "not resolved
when checking size". -/
theorem C6_symlink_dir_is_traversed :
    get_dir_info (.dir "d" 7 10 .alive
      [.symlinkDir "l" 1 5 (.dir "t" 2 20 .alive [.file "g" 50 3 .alive])]) =
      .ok (some ⟨"d", 60, 20, 3, 4, 0⟩) ∧ (60 : Nat) ≠ 7 + 1 := by
  constructor
  · simp [get_dir_info, walkDirs, foldFile, foldDirInfo, statNoFollow, isFileLike,
      isDirLike, List.filter, List.foldl]
  · decide

/-! ## C5: children vanishing between listing and metadata query -/

/-- C5 counterexample to the claim as stated: a file that vanishes after
the `isfile` classification but before its charged `os.stat`
(`goneAtStat`) contributes nothing to size or mtimes, yet still
contributes one to `entries_count`, because the code sets
`entries_count = len(files) + 1` before the stat loop and does not
decrement on `FileNotFoundError`: with the vanishing child the count is 2,
without it 1. -/
theorem C5_counterexample_vanished_still_counted :
    get_dir_info (.dir "d" 0 0 .alive [.file "f" 5 1 .goneAtStat]) =
      .ok (some ⟨"d", 0, 0, 0, 2, 0⟩) ∧
    get_dir_info (.dir "d" 0 0 .alive []) = .ok (some ⟨"d", 0, 0, 0, 1, 0⟩) ∧
    (2 : Nat) ≠ 1 := by
  refine ⟨?_, ?_, by decide⟩ <;>
    simp [get_dir_info, walkDirs, foldFile, foldDirInfo, statNoFollow, isFileLike,
      isDirLike, List.filter, List.foldl]

theorem foldl_foldFile_count (L : List FSEntry) :
    ∀ a : Agg, (L.foldl foldFile a).count = a.count := by
  induction L with
  | nil => intro a; rfl
  | cons f L ih =>
    intro a
    rw [List.foldl_cons, ih]
    unfold foldFile
    cases statNoFollow f with
    | none => rfl
    | some p => rfl

theorem foldl_foldFile_count_irrel (L : List FSEntry) :
    ∀ (sz : Nat) (l o : Int) (c c' : Nat),
      L.foldl foldFile ⟨sz, l, o, c⟩ =
        ⟨(L.foldl foldFile ⟨sz, l, o, c'⟩).size,
         (L.foldl foldFile ⟨sz, l, o, c'⟩).latest,
         (L.foldl foldFile ⟨sz, l, o, c'⟩).oldest, c⟩ := by
  induction L with
  | nil => intro sz l o c c'; rfl
  | cons f L ih =>
    intro sz l o c c'
    rw [List.foldl_cons, List.foldl_cons]
    unfold foldFile
    cases statNoFollow f with
    | none => exact ih sz l o c c'
    | some p => exact ih (sz + p.1) (max l p.2) (min o p.2) c c'

theorem walkDirs_count_shift (ds : List FSEntry) :
    ∀ (a : Agg) (k : Nat),
      walkDirs ds ⟨a.size, a.latest, a.oldest, a.count + k⟩ =
        (walkDirs ds a).map (fun r => ⟨r.size, r.latest, r.oldest, r.count + k⟩) := by
  induction ds with
  | nil => intro a k; simp [walkDirs, Except.map]
  | cons d ds ih =>
    intro a k
    cases hget : get_dir_info d with
    | error e => simp [walkDirs, hget, Except.map]
    | ok odi =>
      cases odi with
      | none =>
        simp only [walkDirs, hget]
        exact ih a k
      | some di =>
        simp only [walkDirs, hget]
        have harith : a.count + k + di.entries_count = (a.count + di.entries_count) + k := by
          omega
        unfold foldDirInfo
        simp only [harith]
        exact ih (foldDirInfo a di) k

/-- C5 (amended): a file-like child that vanishes between being listed and
being queried for metadata never makes `get_dir_info` fail and contributes
nothing to `total_size` or to the mtime bounds; it also contributes nothing
to `entries_count` if it vanished before the `isfile`/`islink`
classification, but if it vanished after classification and before the
charged `os.stat` it still contributes exactly one to `entries_count`
(which the code fixes as `len(files) + 1` before the stat loop). -/
theorem C5_amended_vanished_child (n : String) (s : Nat) (m : Int)
    (cs1 cs2 : List FSEntry) (f : FSEntry) (fn : String) (fs : Nat) (fm : Int) (v : Van)
    (hshape : f = .file fn fs fm v ∨ f = .symlink fn fs fm v)
    (hv : v = .goneAtStat ∨ v = .goneAtClassify) :
    get_dir_info (.dir n s m .alive (cs1 ++ f :: cs2)) =
      (get_dir_info (.dir n s m .alive (cs1 ++ cs2))).map
        (Option.map (fun di =>
          ⟨di.path, di.size, di.latest_mtime, di.oldest_mtime,
            di.entries_count + (if v = .goneAtStat then 1 else 0),
            di.processing_time⟩)) := by
  have hdirf : isDirLike f = false := by
    rcases hshape with h | h <;> subst h <;> rfl
  have hstat : statNoFollow f = none := by
    rcases hshape with h | h <;> rcases hv with hv | hv <;> subst h <;> subst hv <;> rfl
  have h1 : (cs1 ++ f :: cs2).filter isDirLike = (cs1 ++ cs2).filter isDirLike := by
    simp [List.filter_append, List.filter_cons, hdirf]
  rcases hv with hv | hv <;> subst hv
  · -- vanished after classification: still in `files`, still counted
    have hfile : isFileLike f = true := by
      rcases hshape with h | h <;> subst h <;> rfl
    have h2 : (cs1 ++ f :: cs2).filter isFileLike =
        cs1.filter isFileLike ++ f :: cs2.filter isFileLike := by
      simp [List.filter_append, List.filter_cons, hfile]
    have h2' : (cs1 ++ cs2).filter isFileLike =
        cs1.filter isFileLike ++ cs2.filter isFileLike := by
      simp [List.filter_append]
    have hskip : ∀ a : Agg, foldFile a f = a := by
      intro a
      unfold foldFile
      rw [hstat]
    simp only [get_dir_info, h1, h2, h2']
    rw [List.foldl_append, List.foldl_cons, hskip, ← List.foldl_append]
    rw [List.length_append, List.length_cons]
    have hcount : (cs1.filter isFileLike).length + ((cs2.filter isFileLike).length + 1) + 1 =
        ((cs1.filter isFileLike ++ cs2.filter isFileLike).length + 1) + 1 := by
      simp [List.length_append]
      omega
    rw [hcount]
    set L := cs1.filter isFileLike ++ cs2.filter isFileLike with hL
    set c0 := L.length + 1 with hc0
    have hirrel := foldl_foldFile_count_irrel L s m m (c0 + 1) c0
    rw [hirrel]
    set A := L.foldl foldFile ⟨s, m, m, c0⟩ with hA
    have hAcount : A.count = c0 := by
      rw [hA, foldl_foldFile_count]
    have hshift := walkDirs_count_shift ((cs1 ++ cs2).filter isDirLike) A 1
    rw [← hAcount]
    rw [hshift]
    cases hwd : walkDirs ((cs1 ++ cs2).filter isDirLike) A with
    | error e => simp [Except.map]
    | ok r => simp [Except.map, Option.map]
  · -- vanished before classification: absent from both lists
    have hnofile : isFileLike f = false := by
      rcases hshape with h | h <;> subst h <;> rfl
    have h2 : (cs1 ++ f :: cs2).filter isFileLike = (cs1 ++ cs2).filter isFileLike := by
      simp [List.filter_append, List.filter_cons, hnofile]
    have hzero : (if (Van.goneAtClassify = Van.goneAtStat) then 1 else 0) = 0 := by
      decide
    simp only [get_dir_info, h1, h2, hzero]
    cases hwd : walkDirs ((cs1 ++ cs2).filter isDirLike)
        (((cs1 ++ cs2).filter isFileLike).foldl foldFile
          ⟨s, m, m, ((cs1 ++ cs2).filter isFileLike).length + 1⟩) with
    | error e => simp [Except.map]
    | ok r => simp [Except.map, Option.map]

/-- C5 witness instance: the amended statement applied to a concrete
directory with one healthy file and one file vanishing at each race
point. -/
theorem C5_amended_vanished_child_witness :
    get_dir_info (.dir "d" 2 7 .alive
      [.file "a" 3 9 .alive, .file "f" 5 1 .goneAtStat]) =
      (get_dir_info (.dir "d" 2 7 .alive [.file "a" 3 9 .alive])).map
        (Option.map (fun di =>
          ⟨di.path, di.size, di.latest_mtime, di.oldest_mtime,
            di.entries_count + (if Van.goneAtStat = Van.goneAtStat then 1 else 0),
            di.processing_time⟩)) :=
  C5_amended_vanished_child "d" 2 7 [.file "a" 3 9 .alive] [] (.file "f" 5 1 .goneAtStat)
    "f" 5 1 .goneAtStat (Or.inl rfl) (Or.inl rfl)

/-! ## C3 and C8: volume redirection in `get_subdirs_info` -/

theorem find_first_characterisation (p : FSEntry → Bool) :
    ∀ (L : List FSEntry) (u : FSEntry), L.find? p = some u →
      p u = true ∧ ∃ pre post, L = pre ++ u :: post ∧ ∀ d ∈ pre, p d = false := by
  intro L
  induction L with
  | nil => intro u h; simp [List.find?] at h
  | cons c L ih =>
    intro u h
    by_cases hp : p c
    · rw [List.find?_cons_of_pos _ hp] at h
      obtain rfl : c = u := by injection h
      exact ⟨hp, [], L, rfl, by simp⟩
    · rw [List.find?_cons_of_neg _ hp] at h
      obtain ⟨hu, pre, post, hsplit, hpre⟩ := ih u h
      refine ⟨hu, c :: pre, post, by rw [hsplit]; rfl, ?_⟩
      intro d hd
      rcases List.mem_cons.mp hd with rfl | hd'
      · exact Bool.eq_false_iff.mpr hp
      · exact hpre d hd'

/-- C3: for a top-level child whose basename contains the volume marker
`tlon_` and for which `find_urb_directory` discovers a payload directory
`u` — necessarily the first directory-like child whose `.urb` probe
succeeds — the loop body of `get_subdirs_info` yields exactly the snapshot
of measuring `u` directly, paired with the original outer basename rather
than the discovered directory's name. -/
theorem C3_volume_redirection (n : String) (s : Nat) (m : Int) (cs : List FSEntry)
    (u : FSEntry) (di : DirInfo)
    (hmark : containsMarker n = true)
    (hfind : find_urb_directory (.dir n s m .alive cs) = some u)
    (hmeas : get_dir_info u = .ok (some di)) :
    processChild (.dir n s m .alive cs) = .ok (some (n, di)) ∧
    hasUrbChild u = true ∧
    ∃ pre post, cs.filter isDirLike = pre ++ u :: post ∧
      ∀ d ∈ pre, hasUrbChild d = false := by
  have hfind' : (cs.filter isDirLike).find? hasUrbChild = some u := by
    simpa [find_urb_directory] using hfind
  obtain ⟨hu, pre, post, hsplit, hpre⟩ :=
    find_first_characterisation hasUrbChild (cs.filter isDirLike) u hfind'
  refine ⟨?_, hu, pre, post, hsplit, hpre⟩
  simp only [processChild, FSEntry.name, hmark, if_true, find_urb_directory, hfind', hmeas]

/-- C3 witness instance: a `tlon_` volume whose first child contains a
`.urb` subdirectory is reported under the volume's name with the child's
snapshot. -/
theorem C3_volume_redirection_witness :
    processChild (.dir "tlon_x" 0 0 .alive
      [.dir "sub" 0 0 .alive [.dir ".urb" 0 0 .alive []]]) =
      .ok (some ("tlon_x", ⟨"sub", 0, 0, 0, 2, 0⟩)) :=
  (C3_volume_redirection "tlon_x" 0 0
    [.dir "sub" 0 0 .alive [.dir ".urb" 0 0 .alive []]]
    (.dir "sub" 0 0 .alive [.dir ".urb" 0 0 .alive []]) ⟨"sub", 0, 0, 0, 2, 0⟩
    rfl rfl
    (by simp [get_dir_info, walkDirs, foldFile, foldDirInfo, statNoFollow, isFileLike,
      isDirLike, List.filter, List.foldl])).1

/-- C8: for a top-level child whose basename contains the volume marker but
none of whose directory-like children passes the `.urb` probe,
`find_urb_directory` returns `None` and the loop body falls back to
measuring the volume directory itself, reported under its own name. -/
theorem C8_volume_fallback (n : String) (s : Nat) (m : Int) (cs : List FSEntry)
    (di : DirInfo)
    (hmark : containsMarker n = true)
    (hnourb : ∀ d ∈ cs.filter isDirLike, hasUrbChild d = false)
    (hmeas : get_dir_info (.dir n s m .alive cs) = .ok (some di)) :
    processChild (.dir n s m .alive cs) = .ok (some (n, di)) := by
  have hnone : (cs.filter isDirLike).find? hasUrbChild = none := by
    rw [List.find?_eq_none]
    intro d hd
    simp [hnourb d hd]
  simp only [processChild, FSEntry.name, hmark, if_true, find_urb_directory, hnone, hmeas]

/-- C8 witness instance: a `tlon_` volume with no payload marker among its
children is measured directly. -/
theorem C8_volume_fallback_witness :
    processChild (.dir "tlon_y" 1 2 .alive [.file "a" 3 4 .alive]) =
      .ok (some ("tlon_y", ⟨"tlon_y", 4, 4, 2, 2, 0⟩)) :=
  C8_volume_fallback "tlon_y" 1 2 [.file "a" 3 4 .alive] ⟨"tlon_y", 4, 4, 2, 2, 0⟩
    rfl (by simp [List.filter, isDirLike])
    (by simp [get_dir_info, walkDirs, foldFile, foldDirInfo, statNoFollow, isFileLike,
      isDirLike, List.filter, List.foldl])

/-! ## C7: stale-metric reconciliation across cycles -/

/-- Embeds `stale_directories = active_directories - current_directories`
of `main`. -/
def staleNames (active current : Finset String) : Finset String :=
  active \ current

/-- Stale sets produced by successive scan cycles of the `while True` loop
of `main`, given the sequence of per-cycle result name sets: each cycle
computes the difference against the previous cycle's names and then
replaces `active_directories` wholesale with `current_directories`. -/
def cycleStales (active : Finset String) : List (Finset String) → List (Finset String)
  | [] => []
  | c :: rest => staleNames active c :: cycleStales c rest

/-- Value of `active_directories` after running the given cycles, starting
from `active`. -/
def finalActive (active : Finset String) : List (Finset String) → Finset String
  | [] => active
  | c :: rest => finalActive c rest

/-- C7: the stale-name set of a cycle is exactly
`previousActiveNames − currentNames`; scanning `{a, b, c}` then `{a, c}`
then `{a, c}` from the initial empty state yields the stale sets `∅`,
`{b}`, `∅`; the first cycle of a fresh process retracts nothing (its stale
set is always empty); and `active_directories` is replaced wholesale, so
after any run it equals the last scanned name set. -/
theorem C7_stale_reconciliation :
    (∀ active current : Finset String, staleNames active current = active \ current) ∧
    cycleStales ∅ [{"a", "b", "c"}, {"a", "c"}, {"a", "c"}] = [∅, {"b"}, ∅] ∧
    (∀ (c : Finset String) (rest : List (Finset String)),
      (cycleStales ∅ (c :: rest)).head? = some ∅) ∧
    (∀ (init fin : Finset String) (scans : List (Finset String)),
      finalActive init (scans ++ [fin]) = fin) := by
  refine ⟨fun _ _ => rfl, by decide, ?_, ?_⟩
  · intro c rest
    simp [cycleStales, staleNames, Finset.empty_sdiff]
  · intro init fin scans
    induction scans generalizing init with
    | nil => rfl
    | cons c rest ih => exact ih c

/-! ## C9: retraction of stale series -/

/-- Modelled from the spec: the gauge objects live in the repository's
`metrics` module, which is not under `src`; per the external-interface
section of the spec a gauge family holds one labeled series per directory
name, and removing an unknown label raises `KeyError` (which is why `main`
wraps the removals in `try ... except KeyError: pass`).  A family is the
association list of `(label, value)` series. -/
structure GaugeFamily where
  series : List (String × Int)
deriving DecidableEq

/-- Currently published value of the series labeled `name`, if any. -/
def lookupSeries (g : GaugeFamily) (name : String) : Option Int :=
  (g.series.find? (fun p => p.1 == name)).map (fun p => p.2)

/-- Modelled from the spec: `Gauge.remove(label)` of the metrics
collaborator deletes the series with that label, raising `KeyError`
(modeled as `Except.error ()`) when no such series exists. -/
def removeLabel (g : GaugeFamily) (name : String) : Except Unit GaugeFamily :=
  if g.series.any (fun p => p.1 == name) then
    .ok ⟨g.series.filter (fun p => !(p.1 == name))⟩
  else
    .error ()

/-- The six gauge families published by `main`: `TOTAL_SIZE`,
`LATEST_MTIME`, `OLDEST_MTIME`, `ENTRIES_COUNT`, `LAST_UPDATED` and the
optional `PROCESSING_TIME`. -/
structure MetricsState where
  total_size : GaugeFamily
  latest_mtime : GaugeFamily
  oldest_mtime : GaugeFamily
  entries_count : GaugeFamily
  last_updated : GaugeFamily
  processing_time : GaugeFamily
deriving DecidableEq

/-- Embeds the retraction loop body of `main` for one stale directory name:
the five (or six, when the detailed-timing flag is set) `remove` calls run
in source order inside one `try`; the first `KeyError` aborts the remaining
removals and is swallowed by `except KeyError: pass`, keeping the removals
already performed. -/
def removeStaleDir (st : MetricsState) (flag : Bool) (name : String) : MetricsState :=
  match removeLabel st.total_size name with
  | .error _ => st
  | .ok g1 =>
    let st1 := { st with total_size := g1 }
    match removeLabel st1.latest_mtime name with
    | .error _ => st1
    | .ok g2 =>
      let st2 := { st1 with latest_mtime := g2 }
      match removeLabel st2.oldest_mtime name with
      | .error _ => st2
      | .ok g3 =>
        let st3 := { st2 with oldest_mtime := g3 }
        match removeLabel st3.entries_count name with
        | .error _ => st3
        | .ok g4 =>
          let st4 := { st3 with entries_count := g4 }
          match removeLabel st4.last_updated name with
          | .error _ => st4
          | .ok g5 =>
            let st5 := { st4 with last_updated := g5 }
            if flag then
              match removeLabel st5.processing_time name with
              | .error _ => st5
              | .ok g6 => { st5 with processing_time := g6 }
            else st5

/-- The metrics collaborator holds no series labeled `name` in any
family. -/
def holdsNoSeries (st : MetricsState) (name : String) : Bool :=
  !(st.total_size.series.any (fun p => p.1 == name)) &&
  !(st.latest_mtime.series.any (fun p => p.1 == name)) &&
  !(st.oldest_mtime.series.any (fun p => p.1 == name)) &&
  !(st.entries_count.series.any (fun p => p.1 == name)) &&
  !(st.last_updated.series.any (fun p => p.1 == name)) &&
  !(st.processing_time.series.any (fun p => p.1 == name))

theorem removeLabel_preserves (g g' : GaugeFamily) (nm other : String)
    (h : removeLabel g nm = .ok g') (hne : other ≠ nm) :
    lookupSeries g' other = lookupSeries g other := by
  unfold removeLabel at h
  by_cases hmem : g.series.any (fun p => p.1 == nm)
  · rw [if_pos hmem] at h
    obtain rfl : (⟨g.series.filter (fun p => !(p.1 == nm))⟩ : GaugeFamily) = g' := by
      injection h
    unfold lookupSeries
    congr 1
    induction g.series with
    | nil => rfl
    | cons p l ih =>
      by_cases hp : p.1 == nm
      · have hpo : (p.1 == other) = false := by
          have : p.1 = nm := by simpa using hp
          subst this
          simpa using fun hcon => hne hcon.symm
        simp [List.filter_cons, hp, List.find?_cons, hpo, ih]
      · simp only [List.filter_cons, hp, Bool.not_false]
        by_cases hpo : p.1 == other
        · simp [List.find?_cons, hpo]
        · simp [List.find?_cons, hpo, ih]
  · rw [if_neg hmem] at h
    cases h

/-- C9: retracting a stale name against a metrics collaborator that holds
no series for it leaves the metrics state unchanged (and, by construction
of `removeStaleDir`, the `KeyError` is swallowed rather than raised), and
retracting one name never removes or alters the series of any other
name in any gauge family. -/
theorem C9_retraction_noop_and_isolated (st : MetricsState) (flag : Bool)
    (name : String) :
    (holdsNoSeries st name = true → removeStaleDir st flag name = st) ∧
    (∀ other, other ≠ name →
      lookupSeries (removeStaleDir st flag name).total_size other =
        lookupSeries st.total_size other ∧
      lookupSeries (removeStaleDir st flag name).latest_mtime other =
        lookupSeries st.latest_mtime other ∧
      lookupSeries (removeStaleDir st flag name).oldest_mtime other =
        lookupSeries st.oldest_mtime other ∧
      lookupSeries (removeStaleDir st flag name).entries_count other =
        lookupSeries st.entries_count other ∧
      lookupSeries (removeStaleDir st flag name).last_updated other =
        lookupSeries st.last_updated other ∧
      lookupSeries (removeStaleDir st flag name).processing_time other =
        lookupSeries st.processing_time other) := by
  constructor
  · intro habs
    have h1 : st.total_size.series.any (fun p => p.1 == name) = false := by
      unfold holdsNoSeries at habs
      simp only [Bool.and_eq_true, Bool.not_eq_true'] at habs
      exact habs.1.1.1.1.1
    unfold removeStaleDir removeLabel
    rw [h1]
    simp
  · intro other hother
    unfold removeStaleDir
    cases h1 : removeLabel st.total_size name with
    | error e => exact ⟨rfl, rfl, rfl, rfl, rfl, rfl⟩
    | ok g1 =>
      dsimp only
      cases h2 : removeLabel st.latest_mtime name with
      | error e =>
        exact ⟨removeLabel_preserves _ _ _ _ h1 hother, rfl, rfl, rfl, rfl, rfl⟩
      | ok g2 =>
        dsimp only
        cases h3 : removeLabel st.oldest_mtime name with
        | error e =>
          exact ⟨removeLabel_preserves _ _ _ _ h1 hother,
            removeLabel_preserves _ _ _ _ h2 hother, rfl, rfl, rfl, rfl⟩
        | ok g3 =>
          dsimp only
          cases h4 : removeLabel st.entries_count name with
          | error e =>
            exact ⟨removeLabel_preserves _ _ _ _ h1 hother,
              removeLabel_preserves _ _ _ _ h2 hother,
              removeLabel_preserves _ _ _ _ h3 hother, rfl, rfl, rfl⟩
          | ok g4 =>
            dsimp only
            cases h5 : removeLabel st.last_updated name with
            | error e =>
              exact ⟨removeLabel_preserves _ _ _ _ h1 hother,
                removeLabel_preserves _ _ _ _ h2 hother,
                removeLabel_preserves _ _ _ _ h3 hother,
                removeLabel_preserves _ _ _ _ h4 hother, rfl, rfl⟩
            | ok g5 =>
              dsimp only
              by_cases hflag : flag
              · rw [if_pos hflag]
                cases h6 : removeLabel st.processing_time name with
                | error e =>
                  exact ⟨removeLabel_preserves _ _ _ _ h1 hother,
                    removeLabel_preserves _ _ _ _ h2 hother,
                    removeLabel_preserves _ _ _ _ h3 hother,
                    removeLabel_preserves _ _ _ _ h4 hother,
                    removeLabel_preserves _ _ _ _ h5 hother, rfl⟩
                | ok g6 =>
                  exact ⟨removeLabel_preserves _ _ _ _ h1 hother,
                    removeLabel_preserves _ _ _ _ h2 hother,
                    removeLabel_preserves _ _ _ _ h3 hother,
                    removeLabel_preserves _ _ _ _ h4 hother,
                    removeLabel_preserves _ _ _ _ h5 hother,
                    removeLabel_preserves _ _ _ _ h6 hother⟩
              · rw [if_neg hflag]
                exact ⟨removeLabel_preserves _ _ _ _ h1 hother,
                  removeLabel_preserves _ _ _ _ h2 hother,
                  removeLabel_preserves _ _ _ _ h3 hother,
                  removeLabel_preserves _ _ _ _ h4 hother,
                  removeLabel_preserves _ _ _ _ h5 hother, rfl⟩

/-- Sample metrics state used by the C9 witness: two published names. -/
def sampleMetrics : MetricsState :=
  ⟨⟨[("a", 10), ("b", 20)]⟩, ⟨[("a", 3), ("b", 4)]⟩, ⟨[("a", 1), ("b", 2)]⟩,
   ⟨[("a", 5), ("b", 6)]⟩, ⟨[("a", 7), ("b", 8)]⟩, ⟨[]⟩⟩

/-- C9 witness instance: retracting the never-published name `gone` is a
no-op, and retracting `b` leaves the series of `a` untouched. -/
theorem C9_retraction_witness :
    removeStaleDir sampleMetrics true "gone" = sampleMetrics ∧
    lookupSeries (removeStaleDir sampleMetrics true "b").total_size "a" =
      lookupSeries sampleMetrics.total_size "a" :=
  ⟨(C9_retraction_noop_and_isolated sampleMetrics true "gone").1 (by decide),
   ((C9_retraction_noop_and_isolated sampleMetrics true "b").2 "a" (by decide)).1⟩

/-! ## C2: aggregation over a static tree -/

mutual

/-- The subtree's entries do not change during the scan: no file-like entry
vanishes and every directory stats and lists successfully. -/
def staticE : FSEntry → Bool
  | .file _ _ _ .alive => true
  | .file _ _ _ _ => false
  | .symlink _ _ _ .alive => true
  | .symlink _ _ _ _ => false
  | .symlinkDir _ _ _ t => staticE t
  | .dir _ _ _ .alive cs => staticList cs
  | .dir _ _ _ _ _ => false
termination_by e => sizeOf e

def staticList : List FSEntry → Bool
  | [] => true
  | c :: cs => staticE c && staticList cs
termination_by l => sizeOf l

end

mutual

/-- No symbolic link in the subtree targets a directory. -/
def noDirLink : FSEntry → Bool
  | .file _ _ _ _ => true
  | .symlink _ _ _ _ => true
  | .symlinkDir _ _ _ _ => false
  | .dir _ _ _ _ cs => noDirLinkList cs
termination_by e => sizeOf e

def noDirLinkList : List FSEntry → Bool
  | [] => true
  | c :: cs => noDirLink c && noDirLinkList cs
termination_by l => sizeOf l

end

mutual

/-- Spec-side list of the own (`lstat`) sizes of every entry of the
subtree, the root included: each file contributes its file size, each
symbolic link only its own link metadata size, each directory its directory
metadata size.  The claimed `totalSizeBytes` is the sum of this list. -/
def allSizes : FSEntry → List Nat
  | .file _ s _ _ => [s]
  | .symlink _ s _ _ => [s]
  | .symlinkDir _ s _ _ => [s]
  | .dir _ s _ _ cs => s :: allSizesList cs
termination_by e => sizeOf e

def allSizesList : List FSEntry → List Nat
  | [] => []
  | c :: cs => allSizes c ++ allSizesList cs
termination_by l => sizeOf l

end

mutual

/-- Spec-side list of the modification times of every entry of the
subtree, the root included.  The claimed `entryCount` is the length of this
list (one entry per file, symlink and directory) and the claimed
`latestModifiedAt`/`oldestModifiedAt` are its true maximum and minimum. -/
def allMtimes : FSEntry → List Int
  | .file _ _ m _ => [m]
  | .symlink _ _ m _ => [m]
  | .symlinkDir _ _ m _ => [m]
  | .dir _ _ m _ cs => m :: allMtimesList cs
termination_by e => sizeOf e

def allMtimesList : List FSEntry → List Int
  | [] => []
  | c :: cs => allMtimes c ++ allMtimesList cs
termination_by l => sizeOf l

end

theorem staticList_mem (cs : List FSEntry) (hcs : staticList cs = true) :
    ∀ c ∈ cs, staticE c = true := by
  induction cs with
  | nil => intro c hc; cases hc
  | cons d ds ih =>
    rw [staticList, Bool.and_eq_true] at hcs
    intro c hc
    rcases List.mem_cons.mp hc with rfl | hc'
    · exact hcs.1
    · exact ih hcs.2 c hc'

theorem noDirLinkList_mem (cs : List FSEntry) (hcs : noDirLinkList cs = true) :
    ∀ c ∈ cs, noDirLink c = true := by
  induction cs with
  | nil => intro c hc; cases hc
  | cons d ds ih =>
    rw [noDirLinkList, Bool.and_eq_true] at hcs
    intro c hc
    rcases List.mem_cons.mp hc with rfl | hc'
    · exact hcs.1
    · exact ih hcs.2 c hc'

theorem allMtimesList_mem (cs : List FSEntry) (x : Int) :
    x ∈ allMtimesList cs ↔ ∃ c ∈ cs, x ∈ allMtimes c := by
  induction cs with
  | nil => simp [allMtimesList]
  | cons d ds ih =>
    rw [allMtimesList, List.mem_append, ih]
    constructor
    · rintro (hx | ⟨c, hc, hxc⟩)
      · exact ⟨d, List.mem_cons_self d ds, hx⟩
      · exact ⟨c, List.mem_cons_of_mem d hc, hxc⟩
    · rintro ⟨c, hc, hxc⟩
      rcases List.mem_cons.mp hc with rfl | hc'
      · exact Or.inl hxc
      · exact Or.inr ⟨c, hc', hxc⟩

theorem allSizesList_sum (cs : List FSEntry) :
    (allSizesList cs).sum = (cs.map (fun c => (allSizes c).sum)).sum := by
  induction cs with
  | nil => simp [allSizesList]
  | cons d ds ih => rw [allSizesList, List.sum_append, List.map_cons, List.sum_cons, ih]

theorem allMtimesList_length (cs : List FSEntry) :
    (allMtimesList cs).length = (cs.map (fun c => (allMtimes c).length)).sum := by
  induction cs with
  | nil => simp [allMtimesList]
  | cons d ds ih => rw [allMtimesList, List.length_append, List.map_cons, List.sum_cons, ih]

/-- Each child of a static, directory-link-free directory is exclusively
file-like (with a successful no-follow stat and singleton spec lists) or a
live plain directory. -/
theorem goodChild (c : FSEntry) (hst : staticE c = true) (hnd : noDirLink c = true) :
    (isFileLike c = true ∧ isDirLike c = false ∧
      statNoFollow c = some (entrySize c, entryMtime c) ∧
      allSizes c = [entrySize c] ∧ allMtimes c = [entryMtime c]) ∨
    (isFileLike c = false ∧ isDirLike c = true ∧
      ∃ nm ss mm ccs, c = .dir nm ss mm .alive ccs) := by
  cases c with
  | file nm ss mm v =>
    cases v with
    | alive =>
      refine Or.inl ⟨rfl, rfl, rfl, ?_, ?_⟩ <;>
        simp [allSizes, allMtimes, entrySize, entryMtime]
    | goneAtClassify => simp [staticE] at hst
    | goneAtStat => simp [staticE] at hst
  | symlink nm ss mm v =>
    cases v with
    | alive =>
      refine Or.inl ⟨rfl, rfl, rfl, ?_, ?_⟩ <;>
        simp [allSizes, allMtimes, entrySize, entryMtime]
    | goneAtClassify => simp [staticE] at hst
    | goneAtStat => simp [staticE] at hst
  | symlinkDir nm ss mm t => simp [noDirLink] at hnd
  | dir nm ss mm st ccs =>
    cases st with
    | alive => exact Or.inr ⟨rfl, rfl, nm, ss, mm, ccs, rfl⟩
    | goneAtClassify => simp [staticE] at hst
    | goneBeforeStat => simp [staticE] at hst
    | listRaises e => simp [staticE] at hst

theorem partition_sum_nat (g : FSEntry → Nat) (cs : List FSEntry)
    (h : ∀ c ∈ cs, isFileLike c = !isDirLike c) :
    ((cs.filter isFileLike).map g).sum + ((cs.filter isDirLike).map g).sum =
      (cs.map g).sum := by
  induction cs with
  | nil => rfl
  | cons c cs ih =>
    have hc := h c (List.mem_cons_self c cs)
    have ih' := ih (fun d hd => h d (List.mem_cons_of_mem c hd))
    by_cases hd : isDirLike c
    · have hf : isFileLike c = false := by rw [hc, hd]; rfl
      simp only [List.filter_cons, hd, hf, List.map_cons, List.sum_cons, if_false, if_true,
        Bool.false_eq_true, ite_false, ite_true]
      omega
    · rw [Bool.not_eq_true] at hd
      have hf : isFileLike c = true := by rw [hc, hd]; rfl
      simp only [List.filter_cons, hd, hf, List.map_cons, List.sum_cons, if_false, if_true,
        Bool.false_eq_true, ite_false, ite_true]
      omega

/-- Aggregate effect of the files loop: sizes add up, the count is
untouched, and the running mtime bounds extend to the files' mtimes. -/
theorem foldFiles_spec (fs : List FSEntry)
    (hfs : ∀ f ∈ fs, statNoFollow f = some (entrySize f, entryMtime f)) :
    ∀ a : Agg,
      (fs.foldl foldFile a).size = a.size + (fs.map entrySize).sum ∧
      (fs.foldl foldFile a).count = a.count ∧
      ((fs.foldl foldFile a).latest = a.latest ∨
        (fs.foldl foldFile a).latest ∈ fs.map entryMtime) ∧
      a.latest ≤ (fs.foldl foldFile a).latest ∧
      (∀ x ∈ fs.map entryMtime, x ≤ (fs.foldl foldFile a).latest) ∧
      ((fs.foldl foldFile a).oldest = a.oldest ∨
        (fs.foldl foldFile a).oldest ∈ fs.map entryMtime) ∧
      (fs.foldl foldFile a).oldest ≤ a.oldest ∧
      (∀ x ∈ fs.map entryMtime, (fs.foldl foldFile a).oldest ≤ x) := by
  induction fs with
  | nil =>
    intro a
    refine ⟨by simp, rfl, Or.inl rfl, le_refl _, by simp, Or.inl rfl, le_refl _, by simp⟩
  | cons f fs ih =>
    intro a
    have hf := hfs f (List.mem_cons_self f fs)
    have ih' := ih (fun g hg => hfs g (List.mem_cons_of_mem f hg))
      ⟨a.size + entrySize f, max a.latest (entryMtime f),
       min a.oldest (entryMtime f), a.count⟩
    obtain ⟨h1, h2, h3, h4, h5, h6, h7, h8⟩ := ih'
    dsimp only at h1 h2 h3 h4 h5 h6 h7 h8
    have hfold : foldFile a f =
        ⟨a.size + entrySize f, max a.latest (entryMtime f),
         min a.oldest (entryMtime f), a.count⟩ := by
      unfold foldFile
      rw [hf]
    rw [List.foldl_cons, hfold]
    refine ⟨?_, h2, ?_, ?_, ?_, ?_, ?_, ?_⟩
    · rw [h1, List.map_cons, List.sum_cons]
      omega
    · rcases h3 with heq | hmem
      · rcases max_choice a.latest (entryMtime f) with hmax | hmax
        · exact Or.inl (by rw [heq, hmax])
        · refine Or.inr ?_
          rw [List.map_cons, heq, hmax]
          exact List.mem_cons_self _ _
      · exact Or.inr (by rw [List.map_cons]; exact List.mem_cons_of_mem _ hmem)
    · exact le_trans (le_max_left _ _) h4
    · intro x hx
      rw [List.map_cons] at hx
      rcases List.mem_cons.mp hx with rfl | hx'
      · exact le_trans (le_max_right _ _) h4
      · exact h5 x hx'
    · rcases h6 with heq | hmem
      · rcases min_choice a.oldest (entryMtime f) with hmin | hmin
        · exact Or.inl (by rw [heq, hmin])
        · refine Or.inr ?_
          rw [List.map_cons, heq, hmin]
          exact List.mem_cons_self _ _
      · exact Or.inr (by rw [List.map_cons]; exact List.mem_cons_of_mem _ hmem)
    · exact le_trans h7 (min_le_left _ _)
    · intro x hx
      rw [List.map_cons] at hx
      rcases List.mem_cons.mp hx with rfl | hx'
      · exact le_trans h7 (min_le_right _ _)
      · exact h8 x hx'

/-- Aggregate effect of the dirs loop when every directory child measures
successfully to its spec values. -/
theorem walkDirs_spec (ds : List FSEntry)
    (hds : ∀ d ∈ ds, ∃ di, get_dir_info d = .ok (some di) ∧
      di.size = (allSizes d).sum ∧ di.entries_count = (allMtimes d).length ∧
      di.latest_mtime ∈ allMtimes d ∧ (∀ x ∈ allMtimes d, x ≤ di.latest_mtime) ∧
      di.oldest_mtime ∈ allMtimes d ∧ (∀ x ∈ allMtimes d, di.oldest_mtime ≤ x)) :
    ∀ a : Agg, ∃ a2, walkDirs ds a = .ok a2 ∧
      a2.size = a.size + (ds.map (fun d => (allSizes d).sum)).sum ∧
      a2.count = a.count + (ds.map (fun d => (allMtimes d).length)).sum ∧
      (a2.latest = a.latest ∨ ∃ d ∈ ds, a2.latest ∈ allMtimes d) ∧
      a.latest ≤ a2.latest ∧
      (∀ d ∈ ds, ∀ x ∈ allMtimes d, x ≤ a2.latest) ∧
      (a2.oldest = a.oldest ∨ ∃ d ∈ ds, a2.oldest ∈ allMtimes d) ∧
      a2.oldest ≤ a.oldest ∧
      (∀ d ∈ ds, ∀ x ∈ allMtimes d, a2.oldest ≤ x) := by
  induction ds with
  | nil =>
    intro a
    refine ⟨a, by simp [walkDirs], by simp, by simp, Or.inl rfl, le_refl _, by simp,
      Or.inl rfl, le_refl _, by simp⟩
  | cons d ds ih =>
    intro a
    obtain ⟨di, hget, hsz, hcnt, hlm, hlb, hom, hob⟩ := hds d (List.mem_cons_self d ds)
    have ih' := ih (fun g hg => hds g (List.mem_cons_of_mem d hg)) (foldDirInfo a di)
    obtain ⟨a2, hwalk, h1, h2, h3, h4, h5, h6, h7, h8⟩ := ih'
    refine ⟨a2, ?_, ?_, ?_, ?_, ?_, ?_, ?_, ?_, ?_⟩
    · rw [walkDirs, hget]
      exact hwalk
    · rw [h1, List.map_cons, List.sum_cons]
      unfold foldDirInfo
      dsimp only
      rw [hsz]
      omega
    · rw [h2, List.map_cons, List.sum_cons]
      unfold foldDirInfo
      dsimp only
      rw [hcnt]
      omega
    · rcases h3 with heq | ⟨g, hg, hmem⟩
      · have : a2.latest = max a.latest di.latest_mtime := by
          rw [heq]; rfl
        rcases max_choice a.latest di.latest_mtime with hmax | hmax
        · exact Or.inl (by rw [this, hmax])
        · exact Or.inr ⟨d, List.mem_cons_self d ds, by rw [this, hmax]; exact hlm⟩
      · exact Or.inr ⟨g, List.mem_cons_of_mem d hg, hmem⟩
    · have hstep : a.latest ≤ (foldDirInfo a di).latest := le_max_left _ _
      exact le_trans hstep h4
    · intro g hg x hx
      rcases List.mem_cons.mp hg with rfl | hg'
      · have hxle : x ≤ di.latest_mtime := hlb x hx
        have hstep : di.latest_mtime ≤ (foldDirInfo a di).latest := le_max_right _ _
        exact le_trans hxle (le_trans hstep h4)
      · exact h5 g hg' x hx
    · rcases h6 with heq | ⟨g, hg, hmem⟩
      · have : a2.oldest = min a.oldest di.oldest_mtime := by
          rw [heq]; rfl
        rcases min_choice a.oldest di.oldest_mtime with hmin | hmin
        · exact Or.inl (by rw [this, hmin])
        · exact Or.inr ⟨d, List.mem_cons_self d ds, by rw [this, hmin]; exact hom⟩
      · exact Or.inr ⟨g, List.mem_cons_of_mem d hg, hmem⟩
    · have hstep : (foldDirInfo a di).oldest ≤ a.oldest := min_le_left _ _
      exact le_trans h7 hstep
    · intro g hg x hx
      rcases List.mem_cons.mp hg with rfl | hg'
      · have hxge : di.oldest_mtime ≤ x := hob x hx
        have hstep : (foldDirInfo a di).oldest ≤ di.oldest_mtime := min_le_right _ _
        exact le_trans (le_trans h7 hstep) hxge
      · exact h8 g hg' x hx

/-- Structural induction principle for `FSEntry` giving the hypothesis for
every member of a directory's child list. -/
theorem FSEntry.recur (P : FSEntry → Prop)
    (hf : ∀ n s m v, P (.file n s m v))
    (hs : ∀ n s m v, P (.symlink n s m v))
    (hsd : ∀ n s m t, P t → P (.symlinkDir n s m t))
    (hd : ∀ n s m st cs, (∀ c ∈ cs, P c) → P (.dir n s m st cs)) :
    ∀ e, P e
  | .file n s m v => hf n s m v
  | .symlink n s m v => hs n s m v
  | .symlinkDir n s m t => hsd n s m t (FSEntry.recur P hf hs hsd hd t)
  | .dir n s m st cs =>
    hd n s m st cs (fun c hc => FSEntry.recur P hf hs hsd hd c)
termination_by e => sizeOf e
decreasing_by
  all_goals simp_wf
  all_goals first
    | omega
    | (have h9 := List.sizeOf_lt_of_mem hc
       omega)

/-- Main aggregation lemma: on a static subtree without directory-targeted
symbolic links, `get_dir_info` of any directory-like entry succeeds and
returns exactly the spec aggregates: the sum of all own sizes, the number
of entries, and the true extrema of all modification times. -/
theorem get_dir_info_static_spec (e : FSEntry) :
    staticE e = true → noDirLink e = true → isDirLike e = true →
    ∃ di, get_dir_info e = .ok (some di) ∧
      di.path = e.name ∧
      di.size = (allSizes e).sum ∧
      di.entries_count = (allMtimes e).length ∧
      di.latest_mtime ∈ allMtimes e ∧ (∀ x ∈ allMtimes e, x ≤ di.latest_mtime) ∧
      di.oldest_mtime ∈ allMtimes e ∧ (∀ x ∈ allMtimes e, di.oldest_mtime ≤ x) := by
  induction e using FSEntry.recur with
  | hf n s m v =>
    intro _ _ h3
    simp [isDirLike] at h3
  | hs n s m v =>
    intro _ _ h3
    simp [isDirLike] at h3
  | hsd n s m t iht =>
    intro _ h2 _
    simp [noDirLink] at h2
  | hd n s m st cs ih =>
    intro h1 h2 h3
    cases st with
    | goneAtClassify => simp [staticE] at h1
    | goneBeforeStat => simp [staticE] at h1
    | listRaises e2 => simp [staticE] at h1
    | alive =>
      have hstl : staticList cs = true := by simpa [staticE] using h1
      have hndl : noDirLinkList cs = true := by simpa [noDirLink] using h2
      have hstc := staticList_mem cs hstl
      have hndc := noDirLinkList_mem cs hndl
      have hdich := fun c hc => goodChild c (hstc c hc) (hndc c hc)
      have hfs : ∀ f ∈ cs.filter isFileLike,
          statNoFollow f = some (entrySize f, entryMtime f) := by
        intro f hf
        obtain ⟨hfm, hff⟩ := List.mem_filter.mp hf
        rcases hdich f hfm with ⟨_, _, hstat, _, _⟩ | ⟨hnb, _, _⟩
        · exact hstat
        · rw [hff] at hnb
          cases hnb
      have hds : ∀ d ∈ cs.filter isDirLike, ∃ di, get_dir_info d = .ok (some di) ∧
          di.size = (allSizes d).sum ∧ di.entries_count = (allMtimes d).length ∧
          di.latest_mtime ∈ allMtimes d ∧ (∀ x ∈ allMtimes d, x ≤ di.latest_mtime) ∧
          di.oldest_mtime ∈ allMtimes d ∧ (∀ x ∈ allMtimes d, di.oldest_mtime ≤ x) := by
        intro d hd
        obtain ⟨hdm, hdd⟩ := List.mem_filter.mp hd
        obtain ⟨di, hget, hpath, hrest⟩ := ih d hdm (hstc d hdm) (hndc d hdm) hdd
        exact ⟨di, hget, hrest⟩
      obtain ⟨hfsz, hfcnt, hflm, hflb, hfub, hfom, hfo2, hfob⟩ :=
        foldFiles_spec _ hfs ⟨s, m, m, (cs.filter isFileLike).length + 1⟩
      obtain ⟨a2, hwalk, h1s, h2c, h3l, h4l, h5l, h6o, h7o, h8o⟩ :=
        walkDirs_spec _ hds
          ((cs.filter isFileLike).foldl foldFile
            ⟨s, m, m, (cs.filter isFileLike).length + 1⟩)
      dsimp only at hfsz hfcnt hflb hfo2
      have hexcl : ∀ c ∈ cs, isFileLike c = !isDirLike c := by
        intro c hc
        rcases hdich c hc with ⟨hft, hdf, _⟩ | ⟨hff, hdt, _⟩
        · rw [hft, hdf]
          rfl
        · rw [hff, hdt]
          rfl
      have hsum := partition_sum_nat (fun c => (allSizes c).sum) cs hexcl
      have hcnt2 := partition_sum_nat (fun c => (allMtimes c).length) cs hexcl
      have hfile_sizes : (cs.filter isFileLike).map (fun c => (allSizes c).sum) =
          (cs.filter isFileLike).map entrySize := by
        apply List.map_congr_left
        intro f hf
        obtain ⟨hfm, hff⟩ := List.mem_filter.mp hf
        rcases hdich f hfm with ⟨_, _, _, hszf, _⟩ | ⟨hnb, _, _⟩
        · rw [hszf]
          simp
        · rw [hff] at hnb
          cases hnb
      have hfile_cnts : (cs.filter isFileLike).map (fun c => (allMtimes c).length) =
          (cs.filter isFileLike).map (fun _ => 1) := by
        apply List.map_congr_left
        intro f hf
        obtain ⟨hfm, hff⟩ := List.mem_filter.mp hf
        rcases hdich f hfm with ⟨_, _, _, _, hmtf⟩ | ⟨hnb, _, _⟩
        · rw [hmtf]
          simp
        · rw [hff] at hnb
          cases hnb
      have hones : ((cs.filter isFileLike).map (fun _ => (1 : Nat))).sum =
          (cs.filter isFileLike).length := by
        induction cs.filter isFileLike with
        | nil => rfl
        | cons x xs ihx =>
          simp [List.map_cons, List.sum_cons, ihx]
          omega
      refine ⟨⟨n, a2.size, a2.latest, a2.oldest, a2.count, 0⟩, ?_, rfl, ?_, ?_, ?_, ?_, ?_, ?_⟩
      · simp only [get_dir_info]
        rw [hwalk]
      · -- total size
        dsimp only
        simp only [allSizes, List.sum_cons]
        rw [allSizesList_sum, ← hsum, hfile_sizes]
        rw [h1s, hfsz]
        omega
      · -- entry count
        dsimp only
        simp only [allMtimes, List.length_cons]
        rw [allMtimesList_length, ← hcnt2, hfile_cnts, hones]
        rw [h2c, hfcnt]
        omega
      · -- latest is one of the mtimes
        dsimp only
        simp only [allMtimes, List.mem_cons]
        rcases h3l with heq | ⟨d, hd, hmem⟩
        · rcases hflm with heq2 | hmem2
          · left
            rw [heq, heq2]
          · right
            rw [allMtimesList_mem]
            rw [heq]
            obtain ⟨f, hf, hfx⟩ := List.mem_map.mp hmem2
            obtain ⟨hfm, hff⟩ := List.mem_filter.mp hf
            refine ⟨f, hfm, ?_⟩
            rcases hdich f hfm with ⟨_, _, _, _, hmtf⟩ | ⟨hnb, _, _⟩
            · rw [hmtf, ← hfx]
              exact List.mem_singleton_self _
            · rw [hff] at hnb
              cases hnb
        · right
          rw [allMtimesList_mem]
          obtain ⟨hdm, _⟩ := List.mem_filter.mp hd
          exact ⟨d, hdm, hmem⟩
      · -- latest is an upper bound
        dsimp only
        simp only [allMtimes, List.mem_cons]
        rintro x (rfl | hx)
        · exact le_trans hflb h4l
        · obtain ⟨c, hc, hxc⟩ := (allMtimesList_mem cs x).mp hx
          rcases hdich c hc with ⟨hft, _, _, _, hmtc⟩ | ⟨_, hdt, _⟩
          · rw [hmtc, List.mem_singleton] at hxc
            subst hxc
            have hmemf : entryMtime c ∈ (cs.filter isFileLike).map entryMtime :=
              List.mem_map.mpr ⟨c, List.mem_filter.mpr ⟨hc, hft⟩, rfl⟩
            exact le_trans (hfub _ hmemf) h4l
          · exact h5l c (List.mem_filter.mpr ⟨hc, hdt⟩) x hxc
      · -- oldest is one of the mtimes
        dsimp only
        simp only [allMtimes, List.mem_cons]
        rcases h6o with heq | ⟨d, hd, hmem⟩
        · rcases hfom with heq2 | hmem2
          · left
            rw [heq, heq2]
          · right
            rw [allMtimesList_mem]
            rw [heq]
            obtain ⟨f, hf, hfx⟩ := List.mem_map.mp hmem2
            obtain ⟨hfm, hff⟩ := List.mem_filter.mp hf
            refine ⟨f, hfm, ?_⟩
            rcases hdich f hfm with ⟨_, _, _, _, hmtf⟩ | ⟨hnb, _, _⟩
            · rw [hmtf, ← hfx]
              exact List.mem_singleton_self _
            · rw [hff] at hnb
              cases hnb
        · right
          rw [allMtimesList_mem]
          obtain ⟨hdm, _⟩ := List.mem_filter.mp hd
          exact ⟨d, hdm, hmem⟩
      · -- oldest is a lower bound
        dsimp only
        simp only [allMtimes, List.mem_cons]
        rintro x (rfl | hx)
        · exact le_trans h7o hfo2
        · obtain ⟨c, hc, hxc⟩ := (allMtimesList_mem cs x).mp hx
          rcases hdich c hc with ⟨hft, _, _, _, hmtc⟩ | ⟨_, hdt, _⟩
          · rw [hmtc, List.mem_singleton] at hxc
            subst hxc
            have hmemf : entryMtime c ∈ (cs.filter isFileLike).map entryMtime :=
              List.mem_map.mpr ⟨c, List.mem_filter.mpr ⟨hc, hft⟩, rfl⟩
            exact le_trans h7o (hfob _ hmemf)
          · exact h8o c (List.mem_filter.mpr ⟨hc, hdt⟩) x hxc

/-- C2 (amended): for every directory tree whose entries do not change
during the scan and whose symbolic links do not target directories,
`get_dir_info` returns a snapshot whose `size` is the sum of all file
sizes (symbolic links contributing only their own link metadata size) plus
all directory metadata sizes, whose `entries_count` is the number of
files plus directories (the root included, one per entry of `allMtimes`),
and whose `latest_mtime`/`oldest_mtime` are the true maximum and minimum
modification time over all entries; in particular the oldest is at most
the latest. -/
theorem C2_amended_static_aggregation (n : String) (s : Nat) (m : Int)
    (cs : List FSEntry)
    (hstatic : staticE (.dir n s m .alive cs) = true)
    (hnd : noDirLink (.dir n s m .alive cs) = true) :
    ∃ di, get_dir_info (.dir n s m .alive cs) = .ok (some di) ∧
      di.path = n ∧
      di.size = (allSizes (.dir n s m .alive cs)).sum ∧
      di.entries_count = (allMtimes (.dir n s m .alive cs)).length ∧
      di.latest_mtime ∈ allMtimes (.dir n s m .alive cs) ∧
      (∀ x ∈ allMtimes (.dir n s m .alive cs), x ≤ di.latest_mtime) ∧
      di.oldest_mtime ∈ allMtimes (.dir n s m .alive cs) ∧
      (∀ x ∈ allMtimes (.dir n s m .alive cs), di.oldest_mtime ≤ x) ∧
      di.oldest_mtime ≤ di.latest_mtime := by
  obtain ⟨di, hget, hpath, hsz, hcnt, hlm, hlb, hom, hob⟩ :=
    get_dir_info_static_spec (.dir n s m .alive cs) hstatic hnd rfl
  exact ⟨di, hget, hpath, hsz, hcnt, hlm, hlb, hom, hob, hlb _ hom⟩

/-- C2 counterexample to the claim as stated: a static tree containing a
symbolic link to a directory (the link `l`, own size 1, targeting `t` of
size 2 with a 50-byte file) is measured to 53 bytes — the link is counted
once as a file-like entry and its whole target subtree is traversed and
added — while the claimed total (every symlink contributing only its own
link metadata) is 1 byte; the entry count is likewise 4 instead of the
claimed 2. -/
theorem C2_counterexample_symlink_to_dir :
    staticE (.dir "d" 0 10 .alive
      [.symlinkDir "l" 1 5 (.dir "t" 2 20 .alive [.file "g" 50 3 .alive])]) = true ∧
    get_dir_info (.dir "d" 0 10 .alive
      [.symlinkDir "l" 1 5 (.dir "t" 2 20 .alive [.file "g" 50 3 .alive])]) =
      .ok (some ⟨"d", 53, 20, 3, 4, 0⟩) ∧
    (allSizes (.dir "d" 0 10 .alive
      [.symlinkDir "l" 1 5 (.dir "t" 2 20 .alive [.file "g" 50 3 .alive])])).sum = 1 ∧
    (allMtimes (.dir "d" 0 10 .alive
      [.symlinkDir "l" 1 5 (.dir "t" 2 20 .alive [.file "g" 50 3 .alive])])).length = 2 ∧
    ((53 : Nat) ≠ 1 ∧ (4 : Nat) ≠ 2) := by
  refine ⟨?_, ?_, ?_, ?_, by decide⟩
  · simp [staticE, staticList]
  · simp [get_dir_info, walkDirs, foldFile, foldDirInfo, statNoFollow, isFileLike,
      isDirLike, List.filter, List.foldl]
  · simp [allSizes, allSizesList]
  · simp [allMtimes, allMtimesList]

/-- C2 witness instance: the amended claim applied to a concrete static
tree with one file and one empty subdirectory. -/
theorem C2_amended_static_aggregation_witness :
    ∃ di, get_dir_info (.dir "r" 4 10 .alive
        [.file "a" 3 12 .alive, .dir "s" 1 8 .alive []]) = .ok (some di) ∧
      di.path = "r" ∧
      di.size = (allSizes (.dir "r" 4 10 .alive
        [.file "a" 3 12 .alive, .dir "s" 1 8 .alive []])).sum ∧
      di.entries_count = (allMtimes (.dir "r" 4 10 .alive
        [.file "a" 3 12 .alive, .dir "s" 1 8 .alive []])).length ∧
      di.latest_mtime ∈ allMtimes (.dir "r" 4 10 .alive
        [.file "a" 3 12 .alive, .dir "s" 1 8 .alive []]) ∧
      (∀ x ∈ allMtimes (.dir "r" 4 10 .alive
        [.file "a" 3 12 .alive, .dir "s" 1 8 .alive []]), x ≤ di.latest_mtime) ∧
      di.oldest_mtime ∈ allMtimes (.dir "r" 4 10 .alive
        [.file "a" 3 12 .alive, .dir "s" 1 8 .alive []]) ∧
      (∀ x ∈ allMtimes (.dir "r" 4 10 .alive
        [.file "a" 3 12 .alive, .dir "s" 1 8 .alive []]), di.oldest_mtime ≤ x) ∧
      di.oldest_mtime ≤ di.latest_mtime :=
  C2_amended_static_aggregation "r" 4 10 [.file "a" 3 12 .alive, .dir "s" 1 8 .alive []]
    (by simp [staticE, staticList]) (by simp [noDirLink, noDirLinkList])
